import Mathlib

/-!
Shallow embedding of the devdrop CLI's configuration model and command
handlers (pkg/config/config.go, pkg/docker/client.go, cmd/*.go), together
with theorems about the environment registry's naming, resolution and
lifecycle rules.

Conventions used throughout:
* Go `time.Time` values are modelled as `Nat`; the zero value of
  `time.Time` is `0`, `time.Now()` is an explicit parameter of each
  operation that reads the clock, and `t1.After t2` is `t2 < t1`.
* Go maps (`map[string]Environment`) are modelled as association lists in
  some iteration order; lookup is `lookupEnv`, assignment is `upsertEnv`.
* External effects (Docker engine calls, terminal prompts, file I/O) are
  collaborators outside this package; where a handler consults them the
  outcome is an explicit parameter, and `Save` on the local config file is
  modelled as succeeding (its failure aborts the command in the source and
  mutates nothing that these theorems talk about).
-/

namespace DevDrop

/-- `config.Environment` (pkg/config/config.go). -/
structure Environment where
  image : String
  baseImage : String
  created : Nat
  lastUpdated : Nat
  description : String
  lastContainer : String
deriving DecidableEq, Repr

/-- `config.Config` (pkg/config/config.go), after `Load` has ensured the
environments map is non-nil, so it is a plain association list here. -/
structure Config where
  username : String
  baseImage : String
  lastContainer : String
  authToken : String
  currentEnvironment : String
  environments : List (String × Environment)
deriving DecidableEq, Repr

/-- Go map read `c.Environments[name]` (comma-ok form). -/
def lookupEnv (k : String) : List (String × Environment) → Option Environment
  | [] => none
  | (k', v) :: rest => if k' = k then some v else lookupEnv k rest

/-- Go map write `c.Environments[name] = env`. -/
def upsertEnv (k : String) (v : Environment) :
    List (String × Environment) → List (String × Environment)
  | [] => [(k, v)]
  | (k', v') :: rest =>
    if k' = k then (k, v) :: rest else (k', v') :: upsertEnv k v rest

/-- `defaultBaseImage` constant (pkg/config/config.go). -/
def defaultBaseImage : String := "ubuntu:24.04"

/-- `strings.HasPrefix s pre` on Go strings. -/
def goHasPrefix (s pre : String) : Bool := pre.data.isPrefixOf s.data

/-- `config.EnsureDevDropPrefix` (pkg/config/config.go, lines 517-526). -/
def EnsureDevDropPrefix (envName : String) : String :=
  if envName = "" then "devdrop-default"
  else if goHasPrefix envName "devdrop-" = false then "devdrop-" ++ envName
  else envName

/-- `(*Config).HasEnvironments` (pkg/config/config.go). -/
def Config.HasEnvironments (c : Config) : Bool := decide (0 < c.environments.length)

/-- The accumulator step of the fallback scan in `GetCurrentEnvironment`:
the Go loop keeps `latestEnv`/`latestTime` and replaces them when
`env.LastUpdated.After(latestTime)`. -/
def latestStep (acc : String × Nat) (p : String × Environment) : String × Nat :=
  if acc.2 < p.2.lastUpdated then (p.1, p.2.lastUpdated) else acc

/-- The whole fallback scan of `GetCurrentEnvironment`, over the map in
iteration order, starting from the zero `time.Time` and empty name. -/
def latestFold (envs : List (String × Environment)) : String × Nat :=
  envs.foldl latestStep ("", 0)

/-- `(*Config).GetCurrentEnvironment` (pkg/config/config.go, lines 557-577). -/
def Config.GetCurrentEnvironment (c : Config) : String :=
  if c.currentEnvironment ≠ "" ∧
      (lookupEnv c.currentEnvironment c.environments).isSome = true then
    c.currentEnvironment
  else
    (latestFold c.environments).1

/-- `(*Config).GetPersonalImageName` (pkg/config/config.go). -/
def Config.GetPersonalImageName (c : Config) : String :=
  if c.username = "" then "" else c.username ++ "/devdrop-env:latest"

/-- `(*Config).GetEnvironmentImageName` (pkg/config/config.go). -/
def Config.GetEnvironmentImageName (c : Config) (envName : String) : String :=
  if c.username = "" then ""
  else c.username ++ "/" ++ EnsureDevDropPrefix envName ++ ":latest"

/-- `(*Config).AddEnvironment` (pkg/config/config.go); the `Save` is
modelled as succeeding. -/
def Config.AddEnvironment (c : Config) (name : String) (env : Environment) : Config :=
  { c with environments := upsertEnv name env c.environments }

/-- `(*Config).SetCurrentEnvironment` (pkg/config/config.go). -/
def Config.SetCurrentEnvironment (c : Config) (envName : String) : Config :=
  { c with currentEnvironment := EnsureDevDropPrefix envName }

/-- `(*Config).SetLastContainer` (pkg/config/config.go). -/
def Config.SetLastContainer (c : Config) (containerID : String) : Config :=
  { c with lastContainer := containerID }

/-- `(*Config).SetEnvironmentContainer` (pkg/config/config.go, lines
528-539); `tNow` is the `time.Now()` read. -/
def Config.SetEnvironmentContainer (c : Config) (envName containerID : String)
    (tNow : Nat) : Config :=
  let envName' := EnsureDevDropPrefix envName
  let env := match lookupEnv envName' c.environments with
    | some e => e
    | none =>
      { image := "", baseImage := "", created := 0, lastUpdated := 0,
        description := "", lastContainer := "" }
  let env' := { env with lastContainer := containerID, lastUpdated := tNow }
  { c with environments := upsertEnv envName' env' c.environments }

/-- `config.Config` exactly as `yaml.Unmarshal` produces it: the
environments map may still be nil (`none`). -/
structure RawConfig where
  username : String
  baseImage : String
  lastContainer : String
  authToken : String
  currentEnvironment : String
  environments : Option (List (String × Environment))
deriving DecidableEq, Repr

/-- The input `config.Load` reads from the filesystem: `none` when the
config file is absent (`os.IsNotExist`), otherwise the result of parsing
the file (`yaml.Unmarshal` may fail). -/
def ConfigFile := Option (Except String RawConfig)

/-- `config.Load` (pkg/config/config.go, lines 49-80). -/
def Load (file : ConfigFile) : Except String RawConfig :=
  match file with
  | none =>
    .ok { username := "", baseImage := defaultBaseImage, lastContainer := "",
          authToken := "", currentEnvironment := "", environments := some [] }
  | some (.error e) => .error ("failed to parse config file: " ++ e)
  | some (.ok raw) =>
    match raw.environments with
    | none => .ok { raw with environments := some [] }
    | some _ => .ok raw

/-- Result of the attached `docker start -i` session as `exec.Cmd.Run`
reports it: `ok` is a nil error (exit status 0), `exited code` is an
`*exec.ExitError` carrying `ExitCode()`, `failed` is any other error. -/
inductive RunResult where
  | ok : RunResult
  | exited : Int → RunResult
  | failed : RunResult
deriving DecidableEq, Repr

/-- A shell session that terminates with exit code `c`, as seen through
`exec.Cmd.Run`: a nil error iff `c = 0`, otherwise an `*exec.ExitError`. -/
def sessionExit (c : Int) : RunResult :=
  if c = 0 then .ok else .exited c

/-- `(*Client).StartInteractiveContainer`, extended variant
(pkg/docker/client.go, lines 98-120): returns `true` when the Go function
returns a nil error. -/
def StartInteractiveContainer (r : RunResult) : Bool :=
  match r with
  | .ok => true
  | .exited exitCode => if 0 ≤ exitCode ∧ exitCode ≤ 2 then true else false
  | .failed => false

/-- `(*Client).StartInteractiveContainer`, minimal variant
(pkg/docker/client.go, lines 362-375): any error from `cmd.Run()` is
propagated. -/
def StartInteractiveContainerV2 (r : RunResult) : Bool :=
  match r with
  | .ok => true
  | .exited _ => false
  | .failed => false

/-- Go slice expression `s[a:b]` on a byte/char sequence. -/
def goSlice (s : List Char) (a b : Nat) : List Char := (s.drop a).take (b - a)

/-- `indexOfSubstring` (cmd/pull.go, lines 150-157): the loop runs `i`
from `0` to `len(s)-len(substr)` inclusive (no iterations when that bound
is negative) and returns the first index where the slice matches. -/
def indexOfSubstring (s substr : List Char) : Int :=
  if s.length < substr.length then -1
  else
    match (List.range (s.length - substr.length + 1)).find?
        (fun i => goSlice s i (i + substr.length) == substr) with
    | some i => (i : Int)
    | none => -1

/-- `contains` (cmd/pull.go, lines 140-147). -/
def contains (s substr : List Char) : Bool :=
  decide (substr.length ≤ s.length) &&
    (s == substr ||
      (decide (substr.length < s.length) &&
        (goSlice s 0 substr.length == substr ||
          goSlice s (s.length - substr.length) s.length == substr ||
          decide (0 ≤ indexOfSubstring s substr))))

/-- `isImageNotFoundError` (cmd/pull.go, lines 128-137); `none` is a nil
error, `some msg` an error whose `Error()` text is `msg`. -/
def isImageNotFoundError (err : Option (List Char)) : Bool :=
  match err with
  | none => false
  | some errStr =>
    contains errStr ("not found".data) ||
      contains errStr ("404".data) ||
      contains errStr ("does not exist".data) ||
      contains errStr ("pull access denied".data)

/-- `runInit` (cmd/init.go, named-environment version), after the starter
image and environment name have been resolved from flags/prompts and the
engine has pulled the base image, created container `containerID` and run
the interactive session successfully; `t` is the `time.Now()` read. -/
def runInit (cfg : Config) (name baseImg containerID : String) (t : Nat) : Config :=
  let finalEnvName := EnsureDevDropPrefix name
  let env : Environment :=
    { image := "", baseImage := baseImg, created := t, lastUpdated := t,
      description := "Environment based on " ++ baseImg,
      lastContainer := containerID }
  let cfg1 := cfg.AddEnvironment finalEnvName env
  cfg1.SetCurrentEnvironment finalEnvName

/-- The error cases of `runCommit` (per-environment version). -/
inductive CommitErr where
  | notLoggedIn : CommitErr
  | noAuthToken : CommitErr
  | noEnvironments : CommitErr
  | noCurrentEnv : CommitErr
  | envNotFound : String → CommitErr
  | noContainer : String → CommitErr
deriving DecidableEq, Repr

/-- Body of `runCommit` (per-environment version) from the environment
lookup on (cmd/status.go, lines 184-248): require an existing record with
a pending container, commit and push (engine calls succeeding), then
store the record with the committed image, a fresh `last_updated` and a
cleared `last_container`. -/
def runCommitOn (cfg : Config) (targetEnv : String) (t : Nat) :
    Except CommitErr Config :=
  match lookupEnv targetEnv cfg.environments with
  | none => .error (.envNotFound targetEnv)
  | some env =>
    if env.lastContainer = "" then .error (.noContainer targetEnv)
    else
      .ok (cfg.AddEnvironment targetEnv
        { env with
          image := cfg.GetEnvironmentImageName targetEnv,
          lastUpdated := t, lastContainer := "" })

/-- `runCommit` (cmd/commit.go, per-environment version — the second copy,
sharing the file with cmd/status.go, lines 152-248), with the engine's
`CommitContainer`/`PushImage` calls succeeding; `t` is the `time.Now()`
read at the config update. -/
def runCommit (cfg : Config) (arg : Option String) (t : Nat) :
    Except CommitErr Config :=
  if cfg.username = "" then .error .notLoggedIn
  else if cfg.authToken = "" then .error .noAuthToken
  else
    match arg with
    | none =>
      if cfg.HasEnvironments = false then .error .noEnvironments
      else if cfg.GetCurrentEnvironment = "" then .error .noCurrentEnv
      else runCommitOn cfg cfg.GetCurrentEnvironment t
    | some a => runCommitOn cfg ( EnsureDevDropPrefix a) t

/-- `runCommit` (cmd/commit.go, single-environment legacy version, lines
48-129): commits `cfg.LastContainer`, writes the `"default"` environment
record from scratch and clears `LastContainer`; engine calls succeed. -/
def runCommitV1 (cfg : Config) (t : Nat) : Except CommitErr Config :=
  if cfg.username = "" then .error .notLoggedIn
  else if cfg.authToken = "" then .error .noAuthToken
  else if cfg.lastContainer = "" then .error (.noContainer "default")
  else
    let imageName := cfg.GetPersonalImageName
    let env : Environment :=
      { image := imageName, baseImage := "", created := t, lastUpdated := t,
        description := "DevDrop environment created from ubuntu:24.04",
        lastContainer := "" }
    let cfg1 := cfg.AddEnvironment "default" env
    .ok (cfg1.SetLastContainer "")

/-- The error cases of `runPull`. -/
inductive PullErr where
  | notLoggedIn : PullErr
  | noEnvironments : PullErr
  | noUsername : PullErr
deriving DecidableEq, Repr

/-- Body of `runPull` from the image-name construction on (cmd/pull.go,
lines 269-314): pull the image (engine call succeeding), then upsert the
environment record — an existing record keeps its fields except `image`
and `last_updated`; a missing one is created with `created := now` and a
pulled-from-registry description. -/
def runPullOn (cfg : Config) (targetEnv : String) (t : Nat) :
    Except PullErr Config :=
  if cfg.GetEnvironmentImageName targetEnv = "" then .error .noUsername
  else
    match lookupEnv targetEnv cfg.environments with
    | some e =>
      .ok (cfg.AddEnvironment targetEnv
        { e with
          image := cfg.GetEnvironmentImageName targetEnv,
          lastUpdated := t })
    | none =>
      .ok (cfg.AddEnvironment targetEnv
        { image := cfg.GetEnvironmentImageName targetEnv,
          baseImage := cfg.GetEnvironmentImageName targetEnv, created := t,
          lastUpdated := t,
          description := "Environment pulled from DockerHub ("
            ++ cfg.GetEnvironmentImageName targetEnv ++ ")",
          lastContainer := "" })

/-- `runPull` (cmd/pull.go, upserting version, lines 241-323), with the
engine's `PullImage` succeeding; `promptRes` is the environment name the
interactive selection would return when no argument is given, and `t` is
the `time.Now()` read. -/
def runPull (cfg : Config) (arg : Option String) (promptRes : String)
    (t : Nat) : Except PullErr Config :=
  if cfg.username = "" then .error .notLoggedIn
  else
    match arg with
    | none =>
      if cfg.HasEnvironments = false then .error .noEnvironments
      else runPullOn cfg promptRes t
    | some a => runPullOn cfg ( EnsureDevDropPrefix a) t

/-- The error cases of `runSwitch`. -/
inductive SwitchErr where
  | noEnvironments : SwitchErr
  | envNotFound : String → SwitchErr
deriving DecidableEq, Repr

/-- `runSwitch` (cmd/switch.go, lines 115-149). The second component of
the result lists every config value passed to `Save`, so an empty list
means the persisted file is untouched. -/
def runSwitch (cfg : Config) (arg : Option String) (promptRes : String) :
    Except SwitchErr Config × List Config :=
  if cfg.HasEnvironments = false then (.error .noEnvironments, [])
  else
    let targetEnv := match arg with
      | none => promptRes
      | some a => EnsureDevDropPrefix a
    match lookupEnv targetEnv cfg.environments with
    | none => (.error (.envNotFound targetEnv), [])
    | some _ =>
      let cfg' := cfg.SetCurrentEnvironment targetEnv
      (.ok cfg', [cfg'])

/-- One call the run command can make to the container engine, in order:
`docker.NewClient` (connect), `ImageExists`, `PullImage`,
`CreateWorkspaceContainer`, `StartInteractiveContainer`. -/
inductive EngineCall where
  | connect : EngineCall
  | imageExists : String → EngineCall
  | pullImage : String → EngineCall
  | createWorkspace : String → String → EngineCall
  | startInteractive : String → EngineCall
deriving DecidableEq, Repr

/-- The outcomes the external container engine would give the run
command, one field per call it can make. -/
structure Engine where
  connectOk : Bool
  imageExistsRes : String → Bool
  pullOk : String → Bool
  createRes : String → String → Option String
  startOk : String → Bool

/-- The error cases of `runRun` (environment-aware version). -/
inductive RunErr where
  | notLoggedIn : RunErr
  | noEnvironments : RunErr
  | noCurrentEnv : RunErr
  | noUsername : RunErr
  | connectFailed : RunErr
  | pullFailed : RunErr
  | createFailed : RunErr
  | startFailed : RunErr
deriving DecidableEq, Repr

/-- The user-facing message of each `runRun` error (cmd/run.go). -/
def runErrMessage : RunErr → String
  | .notLoggedIn =>
    "you must run \x27devdrop login\x27 first to authenticate with DockerHub"
  | .noEnvironments =>
    "no environments configured. Run \x27devdrop init\x27 to create one"
  | .noCurrentEnv =>
    "no current environment set. Run \x27devdrop switch\x27 to select one"
  | .noUsername => "no username configured. Run \x27devdrop login\x27 first"
  | .connectFailed => "failed to connect to Docker"
  | .pullFailed => "failed to pull environment image"
  | .createFailed => "failed to create container"
  | .startFailed => "failed to start container"

/-- Tail of `runRun` from container creation on (cmd/run.go, lines
139-165): create the workspace container, run it interactively, then save
the container id on the environment record. -/
def runRunFinish (cfg : Config) (targetEnv : String) (eng : Engine)
    (cwd : String) (t : Nat) (useImage : String) (trace : List EngineCall) :
    Except RunErr Config × List EngineCall :=
  let trace1 := trace ++ [EngineCall.createWorkspace useImage cwd]
  match eng.createRes useImage cwd with
  | none => (.error .createFailed, trace1)
  | some containerID =>
    let trace2 := trace1 ++ [EngineCall.startInteractive containerID]
    if eng.startOk containerID = false then (.error .startFailed, trace2)
    else (.ok (cfg.SetEnvironmentContainer targetEnv containerID t), trace2)

/-- Image-selection step of `runRun` (cmd/run.go, lines 97-121) followed
by `runRunFinish`: the committed image if present locally, else the
environment's recorded base image, else a registry pull. -/
def runRunWith (cfg : Config) (targetEnv : String) (eng : Engine)
    (cwd : String) (t : Nat) : Except RunErr Config × List EngineCall :=
  let imageName := cfg.GetEnvironmentImageName targetEnv
  if imageName = "" then (.error .noUsername, [])
  else
    let trace0 := [EngineCall.connect]
    if eng.connectOk = false then (.error .connectFailed, trace0)
    else
      let trace1 := trace0 ++ [EngineCall.imageExists imageName]
      if eng.imageExistsRes imageName then
        runRunFinish cfg targetEnv eng cwd t imageName trace1
      else
        let pullPath :=
          let trace2 := trace1 ++ [EngineCall.pullImage imageName]
          if eng.pullOk imageName = false then (.error .pullFailed, trace2)
          else runRunFinish cfg targetEnv eng cwd t imageName trace2
        match lookupEnv targetEnv cfg.environments with
        | some env =>
          if env.baseImage ≠ "" then
            runRunFinish cfg targetEnv eng cwd t env.baseImage trace1
          else pullPath
        | none => pullPath

/-- `runRun` (cmd/run.go, environment-aware version, lines 57-166). The
second component records every engine call made, in order; `cwd` is the
already-absolutised working directory and `t` the `time.Now()` read at
the container save. -/
def runRun (cfg : Config) (arg : Option String) (eng : Engine)
    (cwd : String) (t : Nat) : Except RunErr Config × List EngineCall :=
  if cfg.username = "" then (.error .notLoggedIn, [])
  else
    match arg with
    | none =>
      if cfg.HasEnvironments = false then (.error .noEnvironments, [])
      else
        let targetEnv := cfg.GetCurrentEnvironment
        if targetEnv = "" then (.error .noCurrentEnv, [])
        else runRunWith cfg targetEnv eng cwd t
    | some a => runRunWith cfg ( EnsureDevDropPrefix a) eng cwd t

/-- One registry-mutating operation applied after an environment exists:
the per-environment commit, the upserting pull, or the container save a
`run` session performs. A failing commit/pull leaves the config as is. -/
inductive Op where
  | commit : Option String → Nat → Op
  | pull : Option String → String → Nat → Op
  | saveContainer : String → String → Nat → Op
deriving DecidableEq, Repr

/-- Apply one operation to the persisted config. -/
def applyOp (cfg : Config) : Op → Config
  | .commit arg t =>
    match runCommit cfg arg t with
    | .ok c => c
    | .error _ => cfg
  | .pull arg promptRes t =>
    match runPull cfg arg promptRes t with
    | .ok c => c
    | .error _ => cfg
  | .saveContainer n containerID t => cfg.SetEnvironmentContainer n containerID t

/-- Apply a sequence of operations in order. -/
def applyOps (cfg : Config) (ops : List Op) : Config := ops.foldl applyOp cfg

/-! ## Helper lemmas -/

lemma goHasPrefix_append (p s : String) : goHasPrefix (p ++ s) p = true := by
  unfold goHasPrefix
  rw [String.data_append]
  exact List.isPrefixOf_iff_prefix.mpr (List.prefix_append _ _)

lemma ne_empty_of_goHasPrefix {s : String}
    (h : goHasPrefix s "devdrop-" = true) : s ≠ "" := by
  intro hs
  rw [hs] at h
  exact absurd h (by decide)

lemma edp_of_hasPrefix {s : String} (h : goHasPrefix s "devdrop-" = true) :
    EnsureDevDropPrefix s = s := by
  unfold EnsureDevDropPrefix
  rw [if_neg (ne_empty_of_goHasPrefix h), h]
  simp

lemma edp_of_not_hasPrefix {s : String} (hne : s ≠ "")
    (h : goHasPrefix s "devdrop-" = false) :
    EnsureDevDropPrefix s = "devdrop-" ++ s := by
  unfold EnsureDevDropPrefix
  rw [if_neg hne, h]
  simp

lemma edp_hasPrefix_result (x : String) :
    goHasPrefix ( EnsureDevDropPrefix x) "devdrop-" = true := by
  unfold EnsureDevDropPrefix
  by_cases h0 : x = ""
  · rw [if_pos h0]; decide
  · rw [if_neg h0]
    cases hb : goHasPrefix x "devdrop-"
    · simpa using goHasPrefix_append "devdrop-" x
    · simpa using hb

lemma edp_idem (x : String) :
    EnsureDevDropPrefix ( EnsureDevDropPrefix x) = EnsureDevDropPrefix x :=
  edp_of_hasPrefix (edp_hasPrefix_result x)

/-! ## C2 -/

/-- C2: `EnsureDevDropPrefix` maps the empty string to
`"devdrop-default"`, returns inputs that already carry the `"devdrop-"`
prefix unchanged, prepends the prefix to every other non-empty input, and
is idempotent. -/
theorem normalizeName_spec :
    EnsureDevDropPrefix "" = "devdrop-default" ∧
    (∀ s : String, goHasPrefix s "devdrop-" = true → EnsureDevDropPrefix s = s) ∧
    (∀ s : String, s ≠ "" → goHasPrefix s "devdrop-" = false →
      EnsureDevDropPrefix s = "devdrop-" ++ s) ∧
    (∀ x : String,
      EnsureDevDropPrefix ( EnsureDevDropPrefix x) = EnsureDevDropPrefix x) :=
  ⟨by decide, fun _ h => edp_of_hasPrefix h,
    fun _ hne h => edp_of_not_hasPrefix hne h, edp_idem⟩

/-- Witness for C2 at concrete inputs. -/
theorem normalizeName_spec_witness :
    ("go" : String) ≠ "" ∧ goHasPrefix "go" "devdrop-" = false ∧
      EnsureDevDropPrefix "go" = "devdrop-go" ∧
      goHasPrefix "devdrop-x" "devdrop-" = true ∧
      EnsureDevDropPrefix "devdrop-x" = "devdrop-x" :=
  ⟨by decide, by decide,
    (normalizeName_spec.2.2.1 "go" (by decide) (by decide)).trans (by decide),
    by decide, normalizeName_spec.2.1 "devdrop-x" (by decide)⟩

lemma latestFold_invariant (envs : List (String × Environment))
    (init : String × Nat) :
    (envs.foldl latestStep init = init ∨
      ∃ e, ((envs.foldl latestStep init).1, e) ∈ envs ∧
        e.lastUpdated = (envs.foldl latestStep init).2) ∧
    (envs.foldl latestStep init = init ∨ init.2 < (envs.foldl latestStep init).2) ∧
    ∀ p ∈ envs, p.2.lastUpdated ≤ (envs.foldl latestStep init).2 := by
  induction envs generalizing init with
  | nil => simp
  | cons hd tl ih =>
    obtain ⟨ih1, ih2, ih3⟩ := ih (latestStep init hd)
    by_cases hup : init.2 < hd.2.lastUpdated
    · have hstep : latestStep init hd = (hd.1, hd.2.lastUpdated) := by
        simp [latestStep, hup]
      rw [List.foldl_cons]
      refine ⟨?_, ?_, ?_⟩
      · rcases ih1 with h | ⟨e, he, hlu⟩
        · exact Or.inr ⟨hd.2, by rw [h, hstep]; exact List.mem_cons_self _ _,
            by rw [h, hstep]⟩
        · exact Or.inr ⟨e, List.mem_cons_of_mem _ he, hlu⟩
      · rcases ih2 with h | h
        · exact Or.inr (by rw [h, hstep]; exact hup)
        · exact Or.inr (lt_trans (by rw [hstep]; exact hup) h)
      · intro p hp
        rcases List.mem_cons.mp hp with rfl | hmem
        · rcases ih2 with h | h
          · rw [h, hstep]
          · exact le_of_lt (lt_of_le_of_lt (by rw [hstep]) h)
        · exact ih3 p hmem
    · have hstep : latestStep init hd = init := by simp [latestStep, hup]
      rw [List.foldl_cons, hstep]
      obtain ⟨jh1, jh2, jh3⟩ := ih (latestStep init hd)
      rw [hstep] at jh1 jh2 jh3
      refine ⟨?_, jh2, ?_⟩
      · rcases jh1 with h | ⟨e, he, hlu⟩
        · exact Or.inl h
        · exact Or.inr ⟨e, List.mem_cons_of_mem _ he, hlu⟩
      · intro p hp
        rcases List.mem_cons.mp hp with rfl | hmem
        · rcases jh2 with h | h
          · rw [h]; exact le_of_not_lt hup
          · exact le_trans (le_of_not_lt hup) (le_of_lt h)
        · exact jh3 p hmem

lemma lookupEnv_isSome_of_mem {k : String} {e : Environment}
    {l : List (String × Environment)} (h : (k, e) ∈ l) :
    (lookupEnv k l).isSome = true := by
  induction l with
  | nil => simp at h
  | cons hd tl ih =>
    obtain ⟨k', v⟩ := hd
    rcases List.mem_cons.mp h with h1 | h2
    · obtain ⟨rfl, rfl⟩ : k' = k ∧ v = e := by
        injection h1.symm with ha hb; exact ⟨ha, hb⟩
      simp [lookupEnv]
    · by_cases hk : k' = k
      · simp [lookupEnv, hk]
      · simpa [lookupEnv, hk] using ih h2

/-! ## C1 -/

/-- C1 (amended): `GetCurrentEnvironment` returns `current_environment`
verbatim when it is non-empty and a key of the map; otherwise, when some
entry has a `last_updated` strictly after the zero time, it returns a key
whose `last_updated` is maximal; and when every entry's `last_updated` is
the zero time (in particular when the map is empty) it returns `""`. -/
theorem resolveCurrentEnvironment_spec (c : Config) :
    (c.currentEnvironment ≠ "" →
      (lookupEnv c.currentEnvironment c.environments).isSome = true →
      c.GetCurrentEnvironment = c.currentEnvironment) ∧
    (¬ (c.currentEnvironment ≠ "" ∧
        (lookupEnv c.currentEnvironment c.environments).isSome = true) →
      ((∃ p ∈ c.environments, 0 < p.2.lastUpdated) →
        ∃ e, (c.GetCurrentEnvironment, e) ∈ c.environments ∧
          ∀ p ∈ c.environments, p.2.lastUpdated ≤ e.lastUpdated) ∧
      ((∀ p ∈ c.environments, p.2.lastUpdated = 0) →
        c.GetCurrentEnvironment = "")) := by
  constructor
  · intro h1 h2
    unfold Config.GetCurrentEnvironment
    rw [if_pos ⟨h1, h2⟩]
  · intro hneg
    unfold Config.GetCurrentEnvironment
    rw [if_neg hneg]
    obtain ⟨inv1, inv2, inv3⟩ := latestFold_invariant c.environments ("", 0)
    constructor
    · rintro ⟨p, hp, hpos⟩
      have hres : 0 < (latestFold c.environments).2 :=
        lt_of_lt_of_le hpos (inv3 p hp)
      rcases inv1 with h | ⟨e, he, hlu⟩
      · rw [show latestFold c.environments = c.environments.foldl latestStep ("", 0)
          from rfl, h] at hres
        exact absurd hres (by decide)
      · exact ⟨e, he, fun q hq => hlu ▸ inv3 q hq⟩
    · intro hzero
      rcases inv1 with h | ⟨e, he, hlu⟩
      · rw [show latestFold c.environments = c.environments.foldl latestStep ("", 0)
          from rfl, h]
      · rcases inv2 with h2 | h2
        · rw [show latestFold c.environments = c.environments.foldl latestStep ("", 0)
            from rfl, h2]
        · have hz : e.lastUpdated = 0 := hzero (_, e) he
          rw [hz] at hlu
          rw [← hlu] at h2
          simp at h2

/-- An environment record whose every field is the Go zero value. -/
def envZero : Environment :=
  { image := "", baseImage := "", created := 0, lastUpdated := 0,
    description := "", lastContainer := "" }

/-- A config whose one environment has the zero `last_updated` and whose
`current_environment` is unset. -/
def cfgStaleZero : Config :=
  { username := "", baseImage := "", lastContainer := "", authToken := "",
    currentEnvironment := "", environments := [("A", envZero)] }

/-- Counterexample to C1 as stated: a non-empty environments map whose
entries all have the zero `last_updated` makes `GetCurrentEnvironment`
return `""`, which is not a key of the map, instead of some maximal key. -/
theorem resolveCurrentEnvironment_counterexample :
    cfgStaleZero.environments ≠ [] ∧
    cfgStaleZero.currentEnvironment = "" ∧
    Config.GetCurrentEnvironment cfgStaleZero = "" ∧
    ∀ p ∈ cfgStaleZero.environments,
      p.1 ≠ Config.GetCurrentEnvironment cfgStaleZero := by decide

/-- Environment with `last_updated = 3`. -/
def envA : Environment := { envZero with lastUpdated := 3 }

/-- Environment with `last_updated = 5`. -/
def envB : Environment := { envZero with lastUpdated := 5 }

/-- Config with two environments and an unset `current_environment`. -/
def cfgAB : Config :=
  { username := "", baseImage := "", lastContainer := "", authToken := "",
    currentEnvironment := "", environments := [("A", envA), ("B", envB)] }

/-- Witness for C1 at a concrete config: the fallback returns a key with
maximal `last_updated`. -/
theorem resolveCurrentEnvironment_spec_witness :
    ∃ e, (Config.GetCurrentEnvironment cfgAB, e) ∈ cfgAB.environments ∧
      ∀ p ∈ cfgAB.environments, p.2.lastUpdated ≤ e.lastUpdated :=
  ((resolveCurrentEnvironment_spec cfgAB).2 (by decide)).1 (by decide)

/-! ## C10 -/

/-- C10: a non-empty `GetCurrentEnvironment` result is always a key of
the environments map, so indexing the map with it hits an entry. -/
theorem getCurrentEnvironment_key_exists (c : Config)
    (h : c.GetCurrentEnvironment ≠ "") :
    (lookupEnv c.GetCurrentEnvironment c.environments).isSome = true := by
  unfold Config.GetCurrentEnvironment at h ⊢
  by_cases hc : c.currentEnvironment ≠ "" ∧
      (lookupEnv c.currentEnvironment c.environments).isSome = true
  · rw [if_pos hc] at h ⊢
    exact hc.2
  · rw [if_neg hc] at h ⊢
    obtain ⟨inv1, _, _⟩ := latestFold_invariant c.environments ("", 0)
    rcases inv1 with heq | ⟨e, he, _⟩
    · exact absurd (congrArg Prod.fst heq) h
    · exact lookupEnv_isSome_of_mem he

/-- Witness for C10 at a concrete config. -/
theorem getCurrentEnvironment_key_exists_witness :
    Config.GetCurrentEnvironment cfgAB ≠ "" ∧
    (lookupEnv (Config.GetCurrentEnvironment cfgAB) cfgAB.environments).isSome
      = true :=
  ⟨by decide, getCurrentEnvironment_key_exists cfgAB (by decide)⟩

lemma lookupEnv_upsert_self (k : String) (v : Environment)
    (l : List (String × Environment)) :
    lookupEnv k (upsertEnv k v l) = some v := by
  induction l with
  | nil => simp [upsertEnv, lookupEnv]
  | cons hd tl ih =>
    obtain ⟨k', v'⟩ := hd
    by_cases hk : k' = k
    · simp [upsertEnv, lookupEnv, hk]
    · simp [upsertEnv, lookupEnv, hk, ih]

lemma lookupEnv_upsert_ne {k k' : String} (h : k' ≠ k) (v : Environment)
    (l : List (String × Environment)) :
    lookupEnv k (upsertEnv k' v l) = lookupEnv k l := by
  induction l with
  | nil => simp [upsertEnv, lookupEnv, h]
  | cons hd tl ih =>
    obtain ⟨a, b⟩ := hd
    by_cases ha : a = k'
    · subst ha
      simp [upsertEnv, lookupEnv, h, ih]
    · by_cases hak : a = k
      · subst hak
        simp [upsertEnv, lookupEnv, ha, Ne.symm h]
      · simp [upsertEnv, lookupEnv, ha, hak, ih]

lemma created_preserved_addEnvironment {cfg : Config} {k tk : String}
    {e env' : Environment} (hk : lookupEnv k cfg.environments = some e)
    (hsame : tk = k → env'.created = e.created) :
    ∃ e', lookupEnv k (cfg.AddEnvironment tk env').environments = some e' ∧
      e'.created = e.created := by
  by_cases htk : tk = k
  · subst htk
    exact ⟨env', by simp [Config.AddEnvironment, lookupEnv_upsert_self],
      hsame rfl⟩
  · exact ⟨e, by simp [Config.AddEnvironment, lookupEnv_upsert_ne htk, hk], rfl⟩

lemma created_preserved_runCommitOn {cfg cfg' : Config} {targetEnv : String}
    {t : Nat} (h : runCommitOn cfg targetEnv t = .ok cfg') {k : String}
    {e : Environment} (hk : lookupEnv k cfg.environments = some e) :
    ∃ e', lookupEnv k cfg'.environments = some e' ∧ e'.created = e.created := by
  unfold runCommitOn at h
  split at h
  · exact absurd h (by simp)
  · rename_i env henv
    split at h
    · exact absurd h (by simp)
    · injection h with h'
      subst h'
      refine created_preserved_addEnvironment hk ?_
      intro htk
      subst htk
      rw [hk] at henv
      injection henv with henv'
      subst henv'
      rfl

lemma created_preserved_runCommit {cfg cfg' : Config} {arg : Option String}
    {t : Nat} (h : runCommit cfg arg t = .ok cfg') {k : String}
    {e : Environment} (hk : lookupEnv k cfg.environments = some e) :
    ∃ e', lookupEnv k cfg'.environments = some e' ∧ e'.created = e.created := by
  unfold runCommit at h
  split at h
  · exact absurd h (by simp)
  · split at h
    · exact absurd h (by simp)
    · split at h
      · split at h
        · exact absurd h (by simp)
        · split at h
          · exact absurd h (by simp)
          · exact created_preserved_runCommitOn h hk
      · exact created_preserved_runCommitOn h hk

lemma created_preserved_runPullOn {cfg cfg' : Config} {targetEnv : String}
    {t : Nat} (h : runPullOn cfg targetEnv t = .ok cfg') {k : String}
    {e : Environment} (hk : lookupEnv k cfg.environments = some e) :
    ∃ e', lookupEnv k cfg'.environments = some e' ∧ e'.created = e.created := by
  unfold runPullOn at h
  split at h
  · exact absurd h (by simp)
  · split at h
    · rename_i env henv
      injection h with h'
      subst h'
      refine created_preserved_addEnvironment hk ?_
      intro htk
      subst htk
      rw [hk] at henv
      injection henv with henv'
      subst henv'
      rfl
    · rename_i henv
      injection h with h'
      subst h'
      refine created_preserved_addEnvironment hk ?_
      intro htk
      subst htk
      rw [hk] at henv
      exact absurd henv (by simp)

lemma created_preserved_runPull {cfg cfg' : Config} {arg : Option String}
    {promptRes : String} {t : Nat} (h : runPull cfg arg promptRes t = .ok cfg')
    {k : String} {e : Environment}
    (hk : lookupEnv k cfg.environments = some e) :
    ∃ e', lookupEnv k cfg'.environments = some e' ∧ e'.created = e.created := by
  unfold runPull at h
  split at h
  · exact absurd h (by simp)
  · split at h
    · split at h
      · exact absurd h (by simp)
      · exact created_preserved_runPullOn h hk
    · exact created_preserved_runPullOn h hk

lemma created_preserved_setEnvironmentContainer (cfg : Config)
    (n containerID : String) (t : Nat) {k : String} {e : Environment}
    (hk : lookupEnv k cfg.environments = some e) :
    ∃ e', lookupEnv k (cfg.SetEnvironmentContainer n containerID t).environments
        = some e' ∧ e'.created = e.created := by
  by_cases htk : EnsureDevDropPrefix n = k
  · refine ⟨{ e with lastContainer := containerID, lastUpdated := t }, ?_, rfl⟩
    simp only [Config.SetEnvironmentContainer, htk, hk]
    simp [lookupEnv_upsert_self]
  · refine ⟨e, ?_, rfl⟩
    simp [Config.SetEnvironmentContainer, lookupEnv_upsert_ne htk, hk]

lemma created_preserved_applyOp (cfg : Config) (op : Op) {k : String}
    {e : Environment} (hk : lookupEnv k cfg.environments = some e) :
    ∃ e', lookupEnv k (applyOp cfg op).environments = some e' ∧
      e'.created = e.created := by
  cases op with
  | commit arg t =>
    simp only [applyOp]
    cases hc : runCommit cfg arg t with
    | ok c => exact created_preserved_runCommit hc hk
    | error _ => exact ⟨e, hk, rfl⟩
  | pull arg promptRes t =>
    simp only [applyOp]
    cases hc : runPull cfg arg promptRes t with
    | ok c => exact created_preserved_runPull hc hk
    | error _ => exact ⟨e, hk, rfl⟩
  | saveContainer n containerID t =>
    exact created_preserved_setEnvironmentContainer cfg n containerID t hk

/-! ## C5 -/

/-- C5 (amended): once an environment record exists, no sequence of the
current per-environment commit, upserting pull, or `run`'s container-save
operations ever changes its `created` timestamp (the legacy
single-environment commit does not have this property, see the
counterexample). -/
theorem created_immutable (ops : List Op) (cfg : Config) (k : String)
    (e : Environment) (hk : lookupEnv k cfg.environments = some e) :
    ∃ e', lookupEnv k (applyOps cfg ops).environments = some e' ∧
      e'.created = e.created := by
  induction ops generalizing cfg e with
  | nil => exact ⟨e, hk, rfl⟩
  | cons op rest ih =>
    obtain ⟨e1, he1, hc1⟩ := created_preserved_applyOp cfg op hk
    obtain ⟨e2, he2, hc2⟩ := ih (applyOp cfg op) e1 he1
    exact ⟨e2, by simpa [applyOps, List.foldl_cons] using he2, hc2.trans hc1⟩

/-- Config on which the legacy commit runs: logged in, with a pending
container from the legacy `run`/`init`. -/
def cfgLegacy : Config :=
  { username := "u", baseImage := "", lastContainer := "c1",
    authToken := "tok", currentEnvironment := "", environments := [] }

/-- The `"default"` record the first legacy commit (at time 1) writes. -/
def envLegacy1 : Environment :=
  { image := "u/devdrop-env:latest", baseImage := "", created := 1,
    lastUpdated := 1,
    description := "DevDrop environment created from ubuntu:24.04",
    lastContainer := "" }

/-- `cfgLegacy` after the first legacy commit. -/
def cfgLegacy1 : Config :=
  { cfgLegacy with
    lastContainer := "",
    environments := [("default", envLegacy1)] }

/-- The `"default"` record the second legacy commit (at time 5) writes. -/
def envLegacy2 : Environment := { envLegacy1 with created := 5, lastUpdated := 5 }

/-- `cfgLegacy1` after a new container save and a second legacy commit. -/
def cfgLegacy2 : Config :=
  { cfgLegacy1 with
    lastContainer := "",
    environments := [("default", envLegacy2)] }

/-- Counterexample to C5 as stated: the legacy commit
(cmd/commit.go `runCommit`, the operation cited by the claim) rebuilds the
`"default"` environment record with `Created: time.Now()`, so a second
commit of the same environment changes its `created` timestamp from 1
to 5. -/
theorem created_immutable_counterexample :
    runCommitV1 cfgLegacy 1 = .ok cfgLegacy1 ∧
    runCommitV1 (cfgLegacy1.SetLastContainer "c2") 5 = .ok cfgLegacy2 ∧
    lookupEnv "default" cfgLegacy1.environments = some envLegacy1 ∧
    envLegacy1.created = 1 ∧
    lookupEnv "default" cfgLegacy2.environments = some envLegacy2 ∧
    envLegacy2.created = 5 := by
  exact ⟨rfl, rfl, rfl, rfl, rfl, rfl⟩

/-- Witness for C5 at a concrete sequence: a commit, a container save and
a pull leave `created` at its original value. -/
theorem created_immutable_witness :
    ∃ e', lookupEnv "devdrop-go"
        (applyOps
          { username := "u", baseImage := "", lastContainer := "",
            authToken := "tok", currentEnvironment := "devdrop-go",
            environments := [("devdrop-go",
              { image := "", baseImage := "golang:latest", created := 1,
                lastUpdated := 1, description := "", lastContainer := "c1" })]
            }
          [Op.commit (some "go") 2, Op.saveContainer "go" "c2" 3,
            Op.pull (some "go") "" 4]).environments = some e' ∧
      e'.created =
        ({ image := "", baseImage := "golang:latest", created := 1,
           lastUpdated := 1, description := "",
           lastContainer := "c1" } : Environment).created :=
  created_immutable _ _ _ _ (by decide)

lemma runInit_username (cfg : Config) (n b c : String) (t : Nat) :
    (runInit cfg n b c t).username = cfg.username := by
  simp [runInit, Config.AddEnvironment, Config.SetCurrentEnvironment]

lemma runInit_authToken (cfg : Config) (n b c : String) (t : Nat) :
    (runInit cfg n b c t).authToken = cfg.authToken := by
  simp [runInit, Config.AddEnvironment, Config.SetCurrentEnvironment]

lemma runInit_lookup_self (cfg : Config) (n b c : String) (t : Nat) :
    lookupEnv ( EnsureDevDropPrefix n) (runInit cfg n b c t).environments =
      some { image := "", baseImage := b, created := t, lastUpdated := t,
             description := "Environment based on " ++ b,
             lastContainer := c } := by
  simp [runInit, Config.AddEnvironment, Config.SetCurrentEnvironment,
    lookupEnv_upsert_self]

/-! ## C3 -/

/-- C3: after `init --name foo` (at time `t1`) followed by a successful
`commit foo` (at a later time `t2`, engine commit/push and config save
succeeding), the stored record under the normalized name has an empty
`last_container`, its `image` is the constructed registry reference
`username/devdrop-foo:latest`, and `last_updated` is strictly greater
than `created`. -/
theorem init_then_commit (cfg : Config) (name baseImg cid : String)
    (t1 t2 : Nat) (hu : cfg.username ≠ "") (ha : cfg.authToken ≠ "")
    (hc : cid ≠ "") (ht : t1 < t2) :
    ∃ cfg2, runCommit (runInit cfg name baseImg cid t1) (some name) t2
        = .ok cfg2 ∧
      ∃ env, lookupEnv ( EnsureDevDropPrefix name) cfg2.environments = some env ∧
        env.lastContainer = "" ∧
        env.image = cfg.username ++ "/" ++ EnsureDevDropPrefix name ++ ":latest" ∧
        env.created < env.lastUpdated := by
  have himg : (runInit cfg name baseImg cid t1).GetEnvironmentImageName
      ( EnsureDevDropPrefix name)
      = cfg.username ++ "/" ++ EnsureDevDropPrefix name ++ ":latest" := by
    unfold Config.GetEnvironmentImageName
    rw [runInit_username, if_neg hu, edp_idem]
  have hstep : runCommit (runInit cfg name baseImg cid t1) (some name) t2
      = runCommitOn (runInit cfg name baseImg cid t1)
          ( EnsureDevDropPrefix name) t2 := by
    unfold runCommit
    rw [if_neg (by rw [runInit_username]; exact hu),
      if_neg (by rw [runInit_authToken]; exact ha)]
  have hrun : runCommitOn (runInit cfg name baseImg cid t1)
      ( EnsureDevDropPrefix name) t2
      = .ok ((runInit cfg name baseImg cid t1).AddEnvironment
          ( EnsureDevDropPrefix name)
          { image := (runInit cfg name baseImg cid t1).GetEnvironmentImageName
              ( EnsureDevDropPrefix name),
            baseImage := baseImg, created := t1, lastUpdated := t2,
            description := "Environment based on " ++ baseImg,
            lastContainer := "" }) := by
    unfold runCommitOn
    rw [runInit_lookup_self]
    simp [hc]
  rw [hstep, hrun]
  refine ⟨_, rfl,
    { image := (runInit cfg name baseImg cid t1).GetEnvironmentImageName
        ( EnsureDevDropPrefix name),
      baseImage := baseImg, created := t1, lastUpdated := t2,
      description := "Environment based on " ++ baseImg,
      lastContainer := "" }, ?_, rfl, himg, ht⟩
  simp [Config.AddEnvironment, lookupEnv_upsert_self]

/-- Witness for C3 at concrete inputs. -/
theorem init_then_commit_witness :
    ∃ cfg2, runCommit
        (runInit
          { username := "alice", baseImage := "", lastContainer := "",
            authToken := "tok", currentEnvironment := "", environments := [] }
          "foo" "ubuntu:24.04" "c1" 1) (some "foo") 2 = .ok cfg2 ∧
      ∃ env, lookupEnv ( EnsureDevDropPrefix "foo") cfg2.environments = some env ∧
        env.lastContainer = "" ∧
        env.image = "alice" ++ "/" ++ EnsureDevDropPrefix "foo" ++ ":latest" ∧
        env.created < env.lastUpdated :=
  init_then_commit _ "foo" "ubuntu:24.04" "c1" 1 2 (by decide) (by decide)
    (by decide) (by decide)

/-! ## C4 -/

/-- C4 (amended): switching to an explicitly given name whose
normalization is not a key of the environments map always fails without
any `Save` (the persisted config, in particular `current_environment`, is
unchanged); the error is `envNotFound` when the map is non-empty and the
no-environments-configured error when the map is empty. -/
theorem switch_absent_name (cfg : Config) (a promptRes : String)
    (habs : lookupEnv ( EnsureDevDropPrefix a) cfg.environments = none) :
    (runSwitch cfg (some a) promptRes).2 = [] ∧
    (cfg.environments ≠ [] →
      (runSwitch cfg (some a) promptRes).1
        = .error (.envNotFound ( EnsureDevDropPrefix a))) ∧
    (cfg.environments = [] →
      (runSwitch cfg (some a) promptRes).1 = .error .noEnvironments) := by
  unfold runSwitch
  by_cases hne : cfg.environments = []
  · have : cfg.HasEnvironments = false := by
      simp [Config.HasEnvironments, hne]
    rw [this]
    simp [hne]
  · have : cfg.HasEnvironments = true := by
      simp [Config.HasEnvironments]
      exact List.length_pos.mpr hne
    rw [this]
    simp only [Bool.true_eq_false, if_false, habs]
    simp [hne]

/-- Config with a user but no environments. -/
def cfgNoEnvs : Config :=
  { username := "u", baseImage := "", lastContainer := "", authToken := "t",
    currentEnvironment := "old", environments := [] }

/-- Counterexample to C4 as stated: with an empty environments map the
switch command fails with the no-environments-configured error, which is
not the environment-not-found error the claim promises for every config
(the config is still unchanged: no `Save` happens). -/
theorem switch_absent_name_counterexample :
    lookupEnv ( EnsureDevDropPrefix "nonexistent") cfgNoEnvs.environments
      = none ∧
    runSwitch cfgNoEnvs (some "nonexistent") "" = (.error .noEnvironments, []) ∧
    ∀ n : String,
      (SwitchErr.noEnvironments : SwitchErr) ≠ SwitchErr.envNotFound n := by
  refine ⟨rfl, rfl, ?_⟩
  intro n h
  exact SwitchErr.noConfusion h

/-- Config with one environment, used as switch witness input. -/
def cfgOneEnv : Config :=
  { username := "u", baseImage := "", lastContainer := "", authToken := "t",
    currentEnvironment := "devdrop-go", environments := [("devdrop-go", envA)] }

/-- Witness for C4 at a concrete config with a non-empty map. -/
theorem switch_absent_name_witness :
    (runSwitch cfgOneEnv (some "nope") "").2 = [] ∧
    (runSwitch cfgOneEnv (some "nope") "").1
      = .error (.envNotFound ( EnsureDevDropPrefix "nope")) :=
  ⟨(switch_absent_name cfgOneEnv "nope" "" (by decide)).1,
    (switch_absent_name cfgOneEnv "nope" "" (by decide)).2.1 (by decide)⟩

/-! ## C6 -/

/-- C6 (amended): the extended `StartInteractiveContainer` treats shell
exit codes 0 through 2 as success and errors exactly on exit codes
outside that range and on non-exit failures; the minimal variant instead
succeeds only when the session exits with code 0. -/
theorem startInteractive_exit_codes (c : Int) :
    (0 ≤ c → c ≤ 2 → StartInteractiveContainer (sessionExit c) = true) ∧
    (¬ (0 ≤ c ∧ c ≤ 2) → StartInteractiveContainer (sessionExit c) = false) ∧
    StartInteractiveContainer .failed = false ∧
    (StartInteractiveContainerV2 (sessionExit c) = true ↔ c = 0) := by
  refine ⟨?_, ?_, rfl, ?_⟩
  · intro h0 h2
    unfold sessionExit
    by_cases hz : c = 0
    · rw [if_pos hz]; rfl
    · rw [if_neg hz]
      simp only [StartInteractiveContainer]
      rw [if_pos ⟨h0, h2⟩]
  · intro hout
    have hz : c ≠ 0 := by rintro rfl; exact hout ⟨le_refl 0, by norm_num⟩
    unfold sessionExit
    rw [if_neg hz]
    simp only [StartInteractiveContainer]
    rw [if_neg hout]
  · unfold sessionExit
    by_cases hz : c = 0
    · rw [if_pos hz]
      simp [StartInteractiveContainerV2, hz]
    · rw [if_neg hz]
      simp [StartInteractiveContainerV2, hz]

/-- Counterexample to C6 as stated: exit code 1 lies in the claimed
success range 0–2, yet the minimal `StartInteractiveContainer` variant
(pkg/docker/client.go, lines 362-375) reports an error for it. -/
theorem startInteractive_exit_codes_counterexample :
    ((0 : Int) ≤ 1 ∧ (1 : Int) ≤ 2) ∧
    StartInteractiveContainerV2 (sessionExit 1) = false := by decide

/-- Witness for C6 at concrete exit codes. -/
theorem startInteractive_exit_codes_witness :
    StartInteractiveContainer (sessionExit 2) = true ∧
    StartInteractiveContainer (sessionExit 130) = false :=
  ⟨(startInteractive_exit_codes 2).1 (by decide) (by decide),
    (startInteractive_exit_codes 130).2.1 (by decide)⟩

/-! ## C8 -/

/-- C8: a logged-in config with an empty environments map makes `run`
(with no explicit environment argument) fail with the user-actionable
error pointing at `devdrop init`, and the engine-call trace is empty: the
error is returned before any connection to the container engine. -/
theorem run_no_envs (cfg : Config) (eng : Engine) (cwd : String) (t : Nat)
    (hu : cfg.username ≠ "") (he : cfg.environments = []) :
    runRun cfg none eng cwd t = (.error .noEnvironments, []) ∧
    runErrMessage .noEnvironments
      = "no environments configured. Run \x27devdrop init\x27 to create one" := by
  refine ⟨?_, rfl⟩
  unfold runRun
  rw [if_neg hu]
  have : cfg.HasEnvironments = false := by simp [Config.HasEnvironments, he]
  rw [this]
  simp

/-- An arbitrary engine oracle for the C8 witness. -/
def engSample : Engine :=
  { connectOk := true, imageExistsRes := fun _ => false,
    pullOk := fun _ => true, createRes := fun _ _ => some "cid",
    startOk := fun _ => true }

/-- Witness for C8 at a concrete config and engine. -/
theorem run_no_envs_witness :
    runRun
        { username := "alice", baseImage := "", lastContainer := "",
          authToken := "tok", currentEnvironment := "", environments := [] }
        none engSample "/home/alice/proj" 7
      = (.error .noEnvironments, []) :=
  (run_no_envs _ engSample "/home/alice/proj" 7 (by decide) rfl).1

/-! ## C9 -/

/-- C9: `Load` never fails because the config file is absent — an absent
file yields a config with a non-nil empty environments map and the
built-in default base image — and after every successful `Load` the
environments map is non-nil. -/
theorem load_absent_defaults :
    (∀ r, Load none = .ok r →
      r.environments = some [] ∧ r.baseImage = defaultBaseImage) ∧
    (∀ (f : ConfigFile) (r : RawConfig), Load f = .ok r →
      r.environments.isSome = true) := by
  constructor
  · intro r h
    injection h with h'
    subst h'
    exact ⟨rfl, rfl⟩
  · intro f r h
    unfold Load at h
    split at h
    · injection h with h'
      subst h'
      rfl
    · exact absurd h (by simp)
    · rename_i raw
      split at h
      · injection h with h'
        subst h'
        rfl
      · rename_i l henv
        injection h with h'
        subst h'
        simp [henv]

/-- The default config an absent file loads to. -/
def rawDefault : RawConfig :=
  { username := "", baseImage := defaultBaseImage, lastContainer := "",
    authToken := "", currentEnvironment := "", environments := some [] }

/-- Witness for C9: loading with the file absent succeeds and the
loaded record has the default base image and a non-nil empty map. -/
theorem load_absent_defaults_witness :
    Load none = .ok rawDefault ∧
    rawDefault.environments = some [] ∧
    rawDefault.baseImage = defaultBaseImage ∧
    rawDefault.environments.isSome = true :=
  ⟨rfl, (load_absent_defaults.1 rawDefault rfl).1,
    (load_absent_defaults.1 rawDefault rfl).2,
    load_absent_defaults.2 none rawDefault rfl⟩

lemma infix_iff_slice (s sub : List Char) :
    sub <:+: s ↔
      ∃ i, i + sub.length ≤ s.length ∧ (s.drop i).take sub.length = sub := by
  constructor
  · rintro ⟨pre, post, rfl⟩
    refine ⟨pre.length, ?_, ?_⟩
    · simp only [List.length_append]
      omega
    · rw [List.append_assoc, List.drop_left, List.take_left]
  · rintro ⟨i, hle, hslice⟩
    refine ⟨s.take i, s.drop (i + sub.length), ?_⟩
    conv_rhs => rw [← List.take_append_drop i s]
    rw [List.append_assoc]
    congr 1
    conv_rhs => rw [← List.take_append_drop sub.length (s.drop i)]
    rw [hslice, List.drop_drop]

lemma indexOfSubstring_nonneg_iff (s sub : List Char) :
    0 ≤ indexOfSubstring s sub ↔ sub <:+: s := by
  unfold indexOfSubstring
  by_cases hlen : s.length < sub.length
  · rw [if_pos hlen]
    constructor
    · intro h
      exact absurd h (by norm_num)
    · intro h
      exact absurd h.length_le (by omega)
  · rw [if_neg hlen]
    push_neg at hlen
    cases hfind : (List.range (s.length - sub.length + 1)).find?
        (fun i => goSlice s i (i + sub.length) == sub) with
    | none =>
      simp only [hfind]
      constructor
      · intro h
        exact absurd h (by norm_num)
      · intro h
        obtain ⟨i, hi, hsl⟩ := (infix_iff_slice s sub).mp h
        have hmem : ∃ x ∈ List.range (s.length - sub.length + 1),
            (fun i => goSlice s i (i + sub.length) == sub) x = true := by
          refine ⟨i, List.mem_range.mpr (by omega), ?_⟩
          simp only [goSlice, Nat.add_sub_cancel_left, beq_iff_eq]
          exact hsl
        have h2 := List.find?_isSome.mpr hmem
        rw [hfind] at h2
        simp at h2
    | some i =>
      simp only [hfind]
      constructor
      · intro _
        have hp := List.find?_some hfind
        have hm := List.mem_range.mp (List.mem_of_find?_eq_some hfind)
        refine (infix_iff_slice s sub).mpr ⟨i, by omega, ?_⟩
        simpa only [goSlice, Nat.add_sub_cancel_left, beq_iff_eq] using hp
      · intro _
        exact Int.natCast_nonneg i

lemma contains_substring_iff (s sub : List Char) :
    contains s sub = true ↔ sub <:+: s := by
  unfold contains
  simp only [Bool.and_eq_true, Bool.or_eq_true, decide_eq_true_eq, beq_iff_eq]
  constructor
  · rintro ⟨hle, hcase⟩
    rcases hcase with rfl | ⟨hlt, hcase2⟩
    · exact List.infix_rfl
    · rcases hcase2 with (h1 | h2) | h3
      · refine (infix_iff_slice s sub).mpr ⟨0, by omega, ?_⟩
        simpa [goSlice] using h1
      · refine (infix_iff_slice s sub).mpr
          ⟨s.length - sub.length, by omega, ?_⟩
        have hlen : s.length - (s.length - sub.length) = sub.length := by omega
        simpa [goSlice, hlen] using h2
      · exact (indexOfSubstring_nonneg_iff s sub).mp h3
  · intro h
    have hle := h.length_le
    refine ⟨hle, ?_⟩
    by_cases heq : s.length = sub.length
    · exact Or.inl (h.sublist.eq_of_length (by omega)).symm
    · exact Or.inr ⟨by omega,
        Or.inr ((indexOfSubstring_nonneg_iff s sub).mpr h)⟩

/-! ## C7 -/

/-- C7: the hand-rolled `contains` helper agrees with the standard
substring-containment relation, `isImageNotFoundError` is false on a nil
error, and it is true on an error exactly when the error text contains
one of the four substrings `"not found"`, `"404"`, `"does not exist"`,
`"pull access denied"`. -/
theorem isImageNotFoundError_spec :
    (∀ s sub : List Char, contains s sub = true ↔ sub <:+: s) ∧
    isImageNotFoundError none = false ∧
    (∀ msg : List Char, isImageNotFoundError (some msg) = true ↔
      ("not found".data <:+: msg ∨ "404".data <:+: msg ∨
        "does not exist".data <:+: msg ∨
        "pull access denied".data <:+: msg)) := by
  refine ⟨contains_substring_iff, rfl, fun msg => ?_⟩
  simp only [isImageNotFoundError, Bool.or_eq_true, contains_substring_iff,
    or_assoc]

/-- Witness for C7 at concrete error texts. -/
theorem isImageNotFoundError_spec_witness :
    isImageNotFoundError
        (some ("pull access denied for repository".data)) = true ∧
    contains ("manifest for x unknown: 404".data) ("404".data) = true :=
  ⟨(isImageNotFoundError_spec.2.2 _).mpr
      (Or.inr (Or.inr (Or.inr (by decide)))),
    (isImageNotFoundError_spec.1 _ _).mpr (by decide)⟩

end DevDrop
